import Mathlib

/-!
Shallow embedding of the Capsicum Linux security module
(security/capsicum.c) and verification of its specification claims.

Machine integers: `u64` values are modelled as `Nat` together with the
all-ones value `2 ^ 64 - 1` (written `(u64)-1` in the source).  Bitwise
AND is `Nat.land`.  Kernel pointers are modelled by the inductive type
`KFile`, whose `nullf` constructor stands for the NULL pointer; pointer
equality is structural equality of `KFile` values.  Reference counting
(`get_file` / `fput` / `atomic_long_inc_not_zero`) is elided: it affects
object lifetime, not the control flow verified here, except where a NULL
dereference would occur, which is modelled as an `Option.none` result.
-/

namespace Capsicum

/-- The all-ones 64-bit value, `(u64)-1` in the source.  It is the rights
mask reported for non-capability files and the "no wrap" sentinel tested
by `capsicum_file_install`. -/
def allOnes : Nat := 2 ^ 64 - 1

/-- The `AT_FDCWD` magic value (-100) as seen through the `unsigned long`
`fd` parameter of `capsicum_require_rights`. -/
def AT_FDCWD : Nat := 2 ^ 64 - 100

/-- `__NR_openat` on x86-64; the exact number is immaterial, only the
comparison `callnr == __NR_openat` in `capsicum_intercept_syscall` uses it. -/
def NR_openat : Nat := 257

/-- `SECCOMP_MODE_CAPSICUM`, the distinguished seccomp mode constant. -/
def SECCOMP_MODE_CAPSICUM : Nat := 3

/-- Abstract error kinds returned by the module (negative errno values in
the source). -/
inductive Err where
  | eBadF
  | eNotCapable
  | eCapMode
  | eInval
  | eNoMem
  | eFault
  | eNoSys
deriving DecidableEq, Repr

/-- Result of a check or syscall: `ok` is the 0 return, `fails e` a
negative errno. -/
inductive SysRes where
  | ok
  | fails (e : Err)
deriving DecidableEq, Repr

/-- A kernel `struct file` pointer.
`ordinary ino` is a regular (non-capability) file object;
`cap rights underlying` is a capability (`struct capsicum_capability` hung
off `file->private_data`, detected by `file->f_op == &capsicum_file_ops`);
`nullf` is the NULL pointer (`capsicum_cap_alloc` makes capabilities whose
`underlying` is still NULL).  Distinct `ino` values model distinct file
objects, so equality of `KFile` values models pointer equality. -/
inductive KFile where
  | ordinary (ino : Nat)
  | cap (rights : Nat) (underlying : KFile)
  | nullf
deriving DecidableEq, Repr

/-- `capsicum_is_cap`: a file is a capability iff its `f_op` table is
`capsicum_file_ops`. -/
def capsicum_is_cap : KFile → Bool
  | .cap _ _ => true
  | _ => false

/-- The rights observed by a rights check: `capsicum_unwrap(file, &r)`
overwrites `r` with the capability rights, and leaves the caller's
initialisation `(u64)-1` in place for a non-capability. -/
def observedRights : KFile → Nat
  | .cap r _ => r
  | _ => allOnes

/-- `capsicum_cap_alloc`: a freshly allocated capability object
(`kzalloc`, so rights 0 and NULL underlying). Allocation failure
(`ENOMEM`) is elided. -/
def capsicum_cap_alloc : KFile := KFile.cap 0 KFile.nullf

/-- A file descriptor table, as consulted by `fcheck` /
`fcheck_files`: `nullf` marks an empty slot. -/
def FdTable := Nat → KFile

/-- `capsicum_install_fd(orig, rights)`: wrap `orig` in a new capability
and install it at a fresh fd (the fd number itself is elided; the result
is the file stored in the table).  If `orig` is a capability it is
unwrapped once before wrapping.  `none` models the NULL dereference
(`get_file(NULL)`) that the source would perform if the unwrap produced
NULL. -/
def capsicum_install_fd (orig : KFile) (rights : Nat) : Option KFile :=
  let target : KFile :=
    match orig with
    | .cap _ u => u
    | f => f
  match target with
  | .nullf => none
  | t => some (KFile.cap rights t)

/-- `do_sys_cap_new(orig_fd, new_rights)`: resolve `orig_fd`; unwrap once
if it is a capability, intersecting `new_rights` with the existing rights
(`existing_rights` stays `(u64)-1` for a non-capability); then install a
new wrapper.  The refcount upgrade (`atomic_long_inc_not_zero`) is
modelled as succeeding. -/
def do_sys_cap_new (fdt : FdTable) (orig_fd : Nat) (new_rights : Nat) :
    Except Err KFile :=
  match fdt orig_fd with
  | .nullf => .error .eBadF
  | .cap r u =>
    match u with
    | .nullf => .error .eBadF
    | u' =>
      match capsicum_install_fd u' (Nat.land new_rights r) with
      | some c => .ok c
      | none => .error .eBadF
  | f =>
    match capsicum_install_fd f (Nat.land new_rights allOnes) with
    | some c => .ok c
    | none => .error .eBadF

/-- `SYSCALL_DEFINE2(cap_getrights, fd, rightsp)`: resolve `fd`; `EBADF`
if absent, `EINVAL` if not a capability; otherwise `put_user` the rights.
`copyOk` tells whether the user-space copy succeeds; the source ignores
the return value of `put_user` and returns 0 regardless.  The second
component is the value that actually reached user space. -/
def capsicum_sys_cap_getrights (fdt : FdTable) (fd : Nat) (copyOk : Bool) :
    SysRes × Option Nat :=
  match fdt fd with
  | .nullf => (.fails .eBadF, none)
  | .cap r _ => (.ok, if copyOk then some r else none)
  | _ => (.fails .eInval, none)

/-- The per-thread `struct capsicum_pending_syscall` (the slate).
`entries` models the populated prefix `fds[0..next_free)` /
`files[0..next_free)` in record order, so `entries.length` is
`next_free`; `fd_count` is the capacity of the arrays. -/
structure Pending where
  entries : List (Nat × KFile)
  fd_count : Nat
  next_new_cap : Option KFile
  new_cap_rights : Nat
  task : Nat
deriving DecidableEq, Repr

/-- `capsicum_get_pending_syscall`: return the slate stored in the current
credentials only when its back-reference names the current task. -/
def capsicum_get_pending_syscall (sec : Option Pending) (cur : Nat) :
    Option Pending :=
  match sec with
  | some p => if p.task = cur then some p else none
  | none => none

/-- `capsicum_in_cap_mode`: `TIF_SECCOMP` is set and the seccomp mode is
`SECCOMP_MODE_CAPSICUM`. -/
def capsicum_in_cap_mode (tifSeccomp : Bool) (seccompMode : Nat) : Bool :=
  tifSeccomp && (seccompMode = SECCOMP_MODE_CAPSICUM)

/-- `capsicum_require_rights(pending, fd, required_rights)`: reject
`AT_FDCWD` with `ECAPMODE`; resolve `fd` (`EBADF` if absent); observe the
rights; fail `ENOMEM` when `next_free >= fd_count`; otherwise record the
`(fd, file)` anti-TOCTOU pair and compare rights.  Returns the result
together with the (possibly updated) slate, since the record is made even
when the rights are insufficient. -/
def capsicum_require_rights (p : Pending) (fdt : FdTable)
    (fd required : Nat) : SysRes × Pending :=
  if fd = AT_FDCWD then (.fails .eCapMode, p)
  else
    match fdt fd with
    | .nullf => (.fails .eBadF, p)
    | file =>
      let actual := observedRights file
      if p.fd_count ≤ p.entries.length then (.fails .eNoMem, p)
      else
        let p' := { p with entries := p.entries ++ [(fd, file)] }
        if Nat.land actual required = required then (.ok, p')
        else (.fails .eNotCapable, p')

/-- Modelled from the spec: `capsicum_run_syscall_table` lives in
`capsicum_syscall_table.h`, which is not part of this source tree.  Per
the spec, the table maps the syscall to an extractor enumerating
`(fd_arg, required_rights)` pairs, each checked with
`capsicum_require_rights`, returning the first failure; a syscall not
covered by the table (`known = false`) is denied with `ECAPMODE`. -/
def capsicum_run_syscall_table (known : Bool) (p : Pending) (fdt : FdTable)
    (checks : List (Nat × Nat)) : SysRes × Pending :=
  if known then
    match checks with
    | [] => (.ok, p)
    | (fd, req) :: rest =>
      match capsicum_require_rights p fdt fd req with
      | (.ok, p') => capsicum_run_syscall_table known p' fdt rest
      | (.fails e, p') => (.fails e, p')
  else (.fails .eCapMode, p)

/-- `capsicum_intercept_syscall`: reset the slate (`next_free = 0`,
`new_cap_rights = 0`), run the per-syscall checks, then, on a successful
`openat` whose first recorded file is a capability with non-NULL
underlying, pre-allocate (or reuse) `next_new_cap` and copy the
capability rights into `new_cap_rights`.  The slate is returned even on
failure, since the source mutates it in place.  (When no entry was
recorded the source would read a stale `files[0]`; per the spec the
`openat` extractor always records its first fd argument first, so the
empty case is modelled as skipping the branch.) -/
def capsicum_intercept_syscall (p : Pending) (fdt : FdTable) (callnr : Nat)
    (known : Bool) (checks : List (Nat × Nat)) : SysRes × Pending :=
  let p0 := { p with entries := [], new_cap_rights := 0 }
  match capsicum_run_syscall_table known p0 fdt checks with
  | (SysRes.ok, p1) =>
    if callnr = NR_openat then
      match p1.entries with
      | (_, KFile.cap rr u) :: _ =>
        if u = KFile.nullf then (SysRes.ok, p1)
        else
          (SysRes.ok,
            { p1 with
              next_new_cap := some (p1.next_new_cap.getD capsicum_cap_alloc),
              new_cap_rights := rr })
      | _ => (SysRes.ok, p1)
    else (SysRes.ok, p1)
  | (SysRes.fails e, p1) => (SysRes.fails e, p1)

/-- Outcome of `capsicum_file_lookup`: `proceed f` returns file `f` to the
caller, `denied` is the NULL return (the calling `fget` then fails with
`EBADF`), `halts` is the `BUG_ON(!found_fd)` path. -/
inductive LookupOutcome where
  | proceed (f : KFile)
  | denied
  | halts
deriving DecidableEq, Repr

/-- The anti-TOCTOU loop of `capsicum_file_lookup`: walk every recorded
entry; any entry naming `fd` with a different file pointer returns NULL
immediately; if the walk ends without having seen `fd` at all,
`BUG_ON(!found_fd)` fires. -/
def lookupScan (fd : Nat) (file underlying : KFile) :
    List (Nat × KFile) → Bool → LookupOutcome
  | [], found => if found then .proceed underlying else .halts
  | e :: rest, found =>
    if e.1 = fd then
      if e.2 ≠ file then .denied
      else lookupScan fd file underlying rest true
    else lookupScan fd file underlying rest found

/-- `capsicum_file_lookup(file, fd)`: non-capabilities (and capabilities
whose `underlying` is still NULL) pass through unchanged; otherwise, when
the thread has its own slate and is in capability mode, the anti-TOCTOU
scan runs; outside those conditions the underlying file is returned
unconditionally. -/
def capsicum_file_lookup (sec : Option Pending) (cur : Nat)
    (tifSeccomp : Bool) (seccompMode : Nat) (file : KFile) (fd : Nat) :
    LookupOutcome :=
  match file with
  | .cap _ .nullf => .proceed file
  | .cap _ underlying =>
    match capsicum_get_pending_syscall sec cur with
    | some p =>
      if capsicum_in_cap_mode tifSeccomp seccompMode then
        lookupScan fd file underlying p.entries false
      else .proceed underlying
    | none => .proceed underlying
  | f => .proceed f

/-- `capsicum_file_install(file, fd)`: capabilities install as-is; with no
self-owned slate, or `new_cap_rights == (u64)-1`, or no pre-allocated
wrapper, the file installs as-is; otherwise the pre-allocated wrapper is
initialised to the file with `new_cap_rights`, both slate fields are
cleared, and the wrapper is installed instead.  Returns the installed
file and the updated credentials. -/
def capsicum_file_install (sec : Option Pending) (cur : Nat)
    (file : KFile) : KFile × Option Pending :=
  if capsicum_is_cap file then (file, sec)
  else
    match capsicum_get_pending_syscall sec cur with
    | none => (file, sec)
    | some p =>
      if p.new_cap_rights = allOnes ∨ p.next_new_cap = none then (file, sec)
      else
        (KFile.cap p.new_cap_rights file,
         some { p with next_new_cap := none, new_cap_rights := 0 })

/-- `capsicum_path_lookup(dentry, name)`: outside capability mode, allow;
in capability mode reject a leading `..` component
(`name[0] == '.' && name[1] == '.' && (name[2] == 0 || name[2] == '/')`)
and an absolute name (`name[0] == '/'`) with `ECAPMODE`. -/
def capsicum_path_lookup (tifSeccomp : Bool) (seccompMode : Nat)
    (name : List Char) : SysRes :=
  if capsicum_in_cap_mode tifSeccomp seccompMode then
    if name.take 2 = ['.', '.'] ∧
        (name.drop 2 = [] ∨ (name.drop 2).head? = some '/') then
      .fails .eCapMode
    else if name.head? = some '/' then .fails .eCapMode
    else .ok
  else .ok

/-- Modelled from the spec: the pathname walker (host kernel code, not in
this tree) fires the hook "per component of any pathname lookup".  This
computes the suffixes of the pathname at which a component starts: a
position holding a character other than a slash, either at the start of
the walk (`prevSlash = true` initially) or right after a slash. -/
def compSuffixesAux (prevSlash : Bool) : List Char → List (List Char)
  | [] => []
  | c :: rest =>
    if c = '/' then compSuffixesAux true rest
    else
      (if prevSlash then [c :: rest] else []) ++ compSuffixesAux false rest

/-- Components of a pathname: at each component start, the maximal run of
non-slash characters. -/
def pathComponentsAux (prevSlash : Bool) : List Char → List (List Char)
  | [] => []
  | c :: rest =>
    if c = '/' then pathComponentsAux true rest
    else
      (if prevSlash then [(c :: rest).takeWhile (fun d => d ≠ '/')] else [])
        ++ pathComponentsAux false rest

/-- The components of a pathname (empty components from repeated or
trailing slashes do not occur). -/
def pathComponents (p : List Char) : List (List Char) :=
  pathComponentsAux true p

/-- Whether one invocation of the hook rejects the given (suffix of the)
pathname. -/
def hookRejects (tifSeccomp : Bool) (seccompMode : Nat)
    (s : List Char) : Bool :=
  decide (capsicum_path_lookup tifSeccomp seccompMode s = .fails .eCapMode)

/-- Modelled from the spec: a full pathname walk fires the hook on the
whole pathname and then on the remaining suffix at each component; the
walk is rejected iff some invocation rejects. -/
def capsicum_path_walk (tifSeccomp : Bool) (seccompMode : Nat)
    (p : List Char) : Bool :=
  (p :: compSuffixesAux true p).any (hookRejects tifSeccomp seccompMode)

/-- The file operation slots of `struct file_operations` populated by
`capsicum_file_ops`. -/
inductive FileOp where
  | llseek
  | read
  | write
  | aio_read
  | aio_write
  | iterate
  | poll
  | unlocked_ioctl
  | compat_ioctl
  | mmap
  | op_open
  | flush
  | release
  | fsync
  | aio_fsync
  | fasync
  | lock
  | sendpage
  | get_unmapped_area
  | check_flags
  | flock
  | splice_write
  | splice_read
  | setlease
  | fallocate
  | show_fdinfo
deriving DecidableEq, Repr, Fintype

/-- What a populated slot does: `fatal` is `panic_ptr`
(`capsicum_panic_not_unwrapped`, which halts the system), `absent` is
NULL, `releases` is `capsicum_release`, `fdinfo` is
`capsicum_show_fdinfo`. -/
inductive OpHandler where
  | fatal
  | absent
  | releases
  | fdinfo
deriving DecidableEq, Repr

/-- `capsicum_file_ops`, slot by slot as in the source initialiser. -/
def capsicum_file_ops : FileOp → OpHandler
  | .llseek => .fatal
  | .read => .fatal
  | .write => .fatal
  | .aio_read => .fatal
  | .aio_write => .fatal
  | .iterate => .fatal
  | .poll => .fatal
  | .unlocked_ioctl => .fatal
  | .compat_ioctl => .fatal
  | .mmap => .fatal
  | .op_open => .fatal
  | .flush => .absent
  | .release => .releases
  | .fsync => .fatal
  | .aio_fsync => .fatal
  | .fasync => .fatal
  | .lock => .fatal
  | .sendpage => .fatal
  | .get_unmapped_area => .fatal
  | .check_flags => .fatal
  | .flock => .fatal
  | .splice_write => .fatal
  | .splice_read => .fatal
  | .setlease => .fatal
  | .fallocate => .fatal
  | .show_fdinfo => .fdinfo

/-- The data operations of the source initialiser, i.e. exactly the slots
set to `panic_ptr`. -/
def dataOps : List FileOp :=
  [.llseek, .read, .write, .aio_read, .aio_write, .iterate, .poll,
   .unlocked_ioctl, .compat_ioctl, .mmap, .op_open, .fsync, .aio_fsync,
   .fasync, .lock, .sendpage, .get_unmapped_area, .check_flags, .flock,
   .splice_write, .splice_read, .setlease, .fallocate]

/-- `capsicum_release(inode, capf)`: `EINVAL` on a non-capability;
otherwise drop (`fput`) the reference on the underlying file (when
non-NULL) and free the capability.  The payload is the reference that was
dropped. -/
def capsicum_release : KFile → Except Err KFile
  | .cap _ u => .ok u
  | _ => .error .eInval

/-- A file is a valid argument for capability construction: either an
ordinary file, or an already-initialised flat capability. -/
def validFile : KFile → Bool
  | .ordinary _ => true
  | .cap _ (.ordinary _) => true
  | _ => false

end Capsicum

namespace Capsicum

/-- Intersecting with the all-ones 64-bit mask is the identity on 64-bit
values. -/
lemma land_allOnes (r : Nat) (hr : r < 2 ^ 64) : Nat.land r allOnes = r := by
  have h := Nat.and_pow_two_sub_one_of_lt_two_pow (n := 64) hr
  simpa [allOnes, HAnd.hAnd, AndOp.and] using h

/-- Bits of an intersection are bits of the right operand: the rights of a
wrapper built from `Nat.land r e` never exceed `e`. -/
lemma land_le_right (r e i : Nat) (h : Nat.testBit (Nat.land r e) i = true) :
    Nat.testBit e i = true := by
  have := Nat.testBit_land r e i
  simp only [HAnd.hAnd, AndOp.and] at this
  rw [this, Bool.and_eq_true] at h
  exact h.2

end Capsicum

namespace Capsicum

/-- C2: the claim states that interception resets `new_cap_rights` to the
"no wrap" sentinel `(u64)-1`, so that a wrapper lingering in
`next_new_cap` from a failed earlier `openat` is never consumed by a
later non-`openat` syscall.  The source instead resets
`new_cap_rights = 0` (while `capsicum_file_install` tests the sentinel
`(u64)-1`): after intercepting a non-`openat` syscall (here `callnr = 1`
with no fd arguments) on a slate carrying a lingering wrapper, the
install hook consumes the wrapper and installs a zero-rights capability
instead of the file itself. -/
theorem C2_intercept_reset_not_sentinel :
    (capsicum_intercept_syscall
        ⟨[], 6, some (KFile.cap 0 KFile.nullf), 9, 0⟩
        (fun _ => KFile.nullf) 1 true []).2.new_cap_rights = 0 ∧
    (capsicum_intercept_syscall
        ⟨[], 6, some (KFile.cap 0 KFile.nullf), 9, 0⟩
        (fun _ => KFile.nullf) 1 true []).2.new_cap_rights ≠ allOnes ∧
    (capsicum_file_install
        (some (capsicum_intercept_syscall
          ⟨[], 6, some (KFile.cap 0 KFile.nullf), 9, 0⟩
          (fun _ => KFile.nullf) 1 true []).2)
        0 (KFile.ordinary 42)).1 = KFile.cap 0 (KFile.ordinary 42) ∧
    KFile.cap 0 (KFile.ordinary 42) ≠ KFile.ordinary 42 := by
  refine ⟨rfl, by decide, rfl, by decide⟩

/-- C9: the claim states `cap_getrights` fails `FAULT` when the rights
mask cannot be copied to user space.  The source ignores the return value
of `put_user` and returns 0: with a capability (rights 5) at fd 4 and a
failing user copy, the syscall still reports success and nothing reaches
user space. -/
theorem C9_getrights_ignores_copy_failure :
    capsicum_sys_cap_getrights
        (fun n => if n = 4 then KFile.cap 5 (KFile.ordinary 1) else KFile.nullf)
        4 false = (SysRes.ok, none) ∧
    (SysRes.ok, (none : Option Nat)) ≠ (SysRes.fails Err.eFault, none) := by
  refine ⟨rfl, by decide⟩

end Capsicum

namespace Capsicum

/-- C3 counterexample: the claim says every successful `openat`
interception whose first fd resolves to a capability with rights `R`
leads the install hook to wrap the new file with rights `R`.  With
`R = (u64)-1` (a capability of unrestricted rights, constructible with
`cap_new(fd, (u64)-1)`), interception succeeds and records
`new_cap_rights = (u64)-1`, but that value is exactly the "no wrap"
sentinel of `capsicum_file_install`, so the new file is installed
unwrapped. -/
theorem C3_allones_parent_not_wrapped :
    (capsicum_intercept_syscall ⟨[], 6, none, 0, 0⟩
        (fun n => if n = 3 then KFile.cap allOnes (KFile.ordinary 7)
                  else KFile.nullf)
        NR_openat true [(3, 0)]).1 = SysRes.ok ∧
    (capsicum_intercept_syscall ⟨[], 6, none, 0, 0⟩
        (fun n => if n = 3 then KFile.cap allOnes (KFile.ordinary 7)
                  else KFile.nullf)
        NR_openat true [(3, 0)]).2.new_cap_rights = allOnes ∧
    ((capsicum_intercept_syscall ⟨[], 6, none, 0, 0⟩
        (fun n => if n = 3 then KFile.cap allOnes (KFile.ordinary 7)
                  else KFile.nullf)
        NR_openat true [(3, 0)]).2.next_new_cap).isSome = true ∧
    (capsicum_file_install
        (some (capsicum_intercept_syscall ⟨[], 6, none, 0, 0⟩
          (fun n => if n = 3 then KFile.cap allOnes (KFile.ordinary 7)
                    else KFile.nullf)
          NR_openat true [(3, 0)]).2)
        0 (KFile.ordinary 9)).1 = KFile.ordinary 9 ∧
    (KFile.ordinary 9 : KFile) ≠ KFile.cap allOnes (KFile.ordinary 9) := by
  refine ⟨rfl, rfl, rfl, rfl, by decide⟩

/-- C8 counterexample: the claim says the sole permissible operation on a
still-wrapped capability is release, every other installed generic
operation being fatal.  The `show_fdinfo` slot is installed with
`capsicum_show_fdinfo`, which merely prints the rights mask: it is
neither fatal nor release. -/
theorem C8_show_fdinfo_not_fatal :
    capsicum_file_ops FileOp.show_fdinfo ≠ OpHandler.fatal ∧
    capsicum_file_ops FileOp.show_fdinfo ≠ OpHandler.releases := by
  decide

/-- C8 (amended): every data operation installed in `capsicum_file_ops`
is the fatal handler; `release` is `capsicum_release`, which drops the
reference on the underlying file; besides those, only `flush` (absent)
and `show_fdinfo` (the rights debug dump) are not fatal. -/
theorem C8_data_ops_fatal_release_drops :
    (∀ op ∈ dataOps, capsicum_file_ops op = OpHandler.fatal) ∧
    capsicum_file_ops FileOp.release = OpHandler.releases ∧
    capsicum_file_ops FileOp.flush = OpHandler.absent ∧
    capsicum_file_ops FileOp.show_fdinfo = OpHandler.fdinfo ∧
    (∀ r u, capsicum_release (KFile.cap r u) = Except.ok u) ∧
    (∀ op, capsicum_file_ops op = OpHandler.fatal ∨ op = FileOp.release ∨
      op = FileOp.flush ∨ op = FileOp.show_fdinfo) := by
  refine ⟨by decide, rfl, rfl, rfl, fun r u => rfl, by decide⟩

/-- C8 witness: the `read` slot of the wrapper operations is fatal. -/
theorem C8_witness : capsicum_file_ops FileOp.read = OpHandler.fatal :=
  C8_data_ops_fatal_release_drops.1 FileOp.read (by decide)

/-- C6 counterexample: the claim says that whenever the checked fd
resolves to a file, the pair is recorded and the check fails only with
`NOTCAPABLE` (on insufficient rights), succeeding otherwise.  With the
slate already full (`next_free = fd_count = 6`), fd 3 resolving to an
ordinary file and no rights required, the source fails `ENOMEM` without
recording. -/
theorem C6_full_slate_fails_enomem :
    capsicum_require_rights
        ⟨[(0, KFile.ordinary 0), (0, KFile.ordinary 0), (0, KFile.ordinary 0),
          (0, KFile.ordinary 0), (0, KFile.ordinary 0), (0, KFile.ordinary 0)],
         6, none, 0, 0⟩
        (fun n => if n = 3 then KFile.ordinary 1 else KFile.nullf) 3 0
      = (SysRes.fails Err.eNoMem,
         ⟨[(0, KFile.ordinary 0), (0, KFile.ordinary 0), (0, KFile.ordinary 0),
           (0, KFile.ordinary 0), (0, KFile.ordinary 0), (0, KFile.ordinary 0)],
          6, none, 0, 0⟩) ∧
    SysRes.fails Err.eNoMem ≠ SysRes.ok ∧
    SysRes.fails Err.eNoMem ≠ SysRes.fails Err.eNotCapable := by
  refine ⟨rfl, by decide, by decide⟩

end Capsicum

namespace Capsicum

/-- C6 (amended): for every fd argument checked by the rights check:
`AT_FDCWD` fails `CAPMODE` unconditionally; an fd that does not resolve
fails `BADF`; otherwise, provided the slate has room
(`next_free < fd_count`), the `(fd, file)` pair is recorded and the check
fails `NOTCAPABLE` exactly when the observed rights do not cover the
required rights, succeeding otherwise.  (When the slate is full the check
instead fails `NOMEM` without recording — see the counterexample.) -/
theorem C6_require_rights_outcomes (p : Pending) (fdt : FdTable) (fd req : Nat) :
    (fd = AT_FDCWD →
      capsicum_require_rights p fdt fd req = (SysRes.fails Err.eCapMode, p))
  ∧ (fd ≠ AT_FDCWD → fdt fd = KFile.nullf →
      capsicum_require_rights p fdt fd req = (SysRes.fails Err.eBadF, p))
  ∧ (fd ≠ AT_FDCWD → fdt fd ≠ KFile.nullf → p.entries.length < p.fd_count →
      capsicum_require_rights p fdt fd req =
        ((if Nat.land (observedRights (fdt fd)) req = req then SysRes.ok
          else SysRes.fails Err.eNotCapable),
         { p with entries := p.entries ++ [(fd, fdt fd)] })) := by
  refine ⟨fun h => by simp [capsicum_require_rights, h], ?_, ?_⟩
  · intro h hn
    simp [capsicum_require_rights, h, hn]
  · intro h hn hroom
    have hle : ¬ (p.fd_count ≤ p.entries.length) := Nat.not_le.mpr hroom
    rcases hft : fdt fd with i | ⟨r, u⟩ | _
    · simp only [capsicum_require_rights, if_neg h, hft, hle, if_false]
      split <;> rfl
    · simp only [capsicum_require_rights, if_neg h, hft, hle, if_false]
      split <;> rfl
    · exact absurd hft hn

/-- C6 witness: checking `AT_FDCWD` on an empty slate fails `ECAPMODE`
and leaves the slate unchanged. -/
theorem C6_witness :
    capsicum_require_rights ⟨[], 6, none, 0, 0⟩ (fun _ => KFile.nullf)
        AT_FDCWD 0 = (SysRes.fails Err.eCapMode, ⟨[], 6, none, 0, 0⟩) :=
  (C6_require_rights_outcomes ⟨[], 6, none, 0, 0⟩ (fun _ => KFile.nullf)
    AT_FDCWD 0).1 rfl

/-- C10: outside capability mode, or without a self-owned slate, the
lookup hook unwraps a capability and returns its underlying file
unconditionally — no anti-TOCTOU scan and no rights restriction. -/
theorem C10_lookup_transparent_outside_capmode
    (sec : Option Pending) (cur : Nat) (tif : Bool) (mode : Nat)
    (r : Nat) (u : KFile) (fd : Nat)
    (hu : u ≠ KFile.nullf)
    (h : capsicum_get_pending_syscall sec cur = none ∨
         capsicum_in_cap_mode tif mode = false) :
    capsicum_file_lookup sec cur tif mode (KFile.cap r u) fd =
      LookupOutcome.proceed u := by
  cases u with
  | nullf => exact absurd rfl hu
  | ordinary i =>
    rcases h with h | h
    · simp [capsicum_file_lookup, h]
    · cases hg : capsicum_get_pending_syscall sec cur <;>
        simp [capsicum_file_lookup, h, hg]
  | cap r2 u2 =>
    rcases h with h | h
    · simp [capsicum_file_lookup, h]
    · cases hg : capsicum_get_pending_syscall sec cur <;>
        simp [capsicum_file_lookup, h, hg]

/-- C10 witness: with no slate at all and seccomp off, looking up a
capability of rights 5 over `ordinary 1` yields `ordinary 1`. -/
theorem C10_witness :
    capsicum_file_lookup none 0 false 0 (KFile.cap 5 (KFile.ordinary 1)) 7 =
      LookupOutcome.proceed (KFile.ordinary 1) :=
  C10_lookup_transparent_outside_capmode none 0 false 0 5 (KFile.ordinary 1) 7
    (by decide) (Or.inl rfl)

/-- C4: for every fd resolving to a file and every 64-bit rights mask
`r`, `cap_new(fd, r)` yields a wrapper whose rights equal `r` intersected
with the existing rights of the file (all-ones for a non-capability, so
that wrapper gets exactly `r`); every bit of the new rights is a bit of
the existing rights, so widening is impossible. -/
theorem C4_cap_new_monotone_narrowing (fdt : FdTable) (fd r : Nat)
    (hr : r < 2 ^ 64) (hvalid : validFile (fdt fd) = true) :
    (∃ t, do_sys_cap_new fdt fd r =
        Except.ok (KFile.cap (Nat.land r (observedRights (fdt fd))) t)) ∧
    (capsicum_is_cap (fdt fd) = false →
        Nat.land r (observedRights (fdt fd)) = r) ∧
    (∀ i, Nat.testBit (Nat.land r (observedRights (fdt fd))) i = true →
        Nat.testBit (observedRights (fdt fd)) i = true) := by
  refine ⟨?_, ?_, fun i => land_le_right r (observedRights (fdt fd)) i⟩
  · rcases hft : fdt fd with i | ⟨R, u⟩ | _
    · exact ⟨KFile.ordinary i,
        by simp [do_sys_cap_new, hft, capsicum_install_fd, observedRights]⟩
    · rcases u with j | ⟨r2, u2⟩ | _
      · exact ⟨KFile.ordinary j,
          by simp [do_sys_cap_new, hft, capsicum_install_fd, observedRights]⟩
      · simp [validFile, hft] at hvalid
      · simp [validFile, hft] at hvalid
    · simp [validFile, hft] at hvalid
  · intro hnc
    rcases hft : fdt fd with i | ⟨R, u⟩ | _
    · simp only [hft, observedRights]
      exact land_allOnes r hr
    · rw [hft] at hnc; simp [capsicum_is_cap] at hnc
    · simp [validFile, hft] at hvalid

/-- C4 witness: `cap_new` on a capability of rights 12 with requested
rights 10 narrows to `10 land 12 = 8`. -/
theorem C4_witness :
    (∃ t, do_sys_cap_new
        (fun n => if n = 1 then KFile.cap 12 (KFile.ordinary 2) else KFile.nullf)
        1 10 =
      Except.ok (KFile.cap
        (Nat.land 10 (observedRights
          ((fun n => if n = 1 then KFile.cap 12 (KFile.ordinary 2)
                     else KFile.nullf) 1))) t)) ∧
    (capsicum_is_cap
        ((fun n => if n = 1 then KFile.cap 12 (KFile.ordinary 2)
                   else KFile.nullf) 1) = false →
      Nat.land 10 (observedRights
        ((fun n => if n = 1 then KFile.cap 12 (KFile.ordinary 2)
                   else KFile.nullf) 1)) = 10) ∧
    (∀ i, Nat.testBit (Nat.land 10 (observedRights
          ((fun n => if n = 1 then KFile.cap 12 (KFile.ordinary 2)
                     else KFile.nullf) 1))) i = true →
        Nat.testBit (observedRights
          ((fun n => if n = 1 then KFile.cap 12 (KFile.ordinary 2)
                     else KFile.nullf) 1)) i = true) :=
  C4_cap_new_monotone_narrowing
    (fun n => if n = 1 then KFile.cap 12 (KFile.ordinary 2) else KFile.nullf)
    1 10 (by decide) (by decide)

/-- C5: capabilities are flat at every construction site.  A wrapper made
by `capsicum_install_fd` (and hence by `cap_new`, which also unwraps its
argument first) has a non-capability underlying file whenever its input
is an ordinary file or an initialised flat capability; and the install
hook either installs the file unchanged or wraps a file that is itself
not a capability. -/
theorem C5_constructed_capabilities_flat :
    (∀ (orig : KFile) (r : Nat) (c : KFile), validFile orig = true →
        capsicum_install_fd orig r = some c →
        ∃ t, c = KFile.cap r t ∧ capsicum_is_cap t = false) ∧
    (∀ (fdt : FdTable) (fd rn : Nat) (c : KFile), validFile (fdt fd) = true →
        do_sys_cap_new fdt fd rn = Except.ok c →
        ∃ rr t, c = KFile.cap rr t ∧ capsicum_is_cap t = false) ∧
    (∀ (sec : Option Pending) (cur : Nat) (file : KFile),
        (capsicum_file_install sec cur file).1 = file ∨
        ∃ rr, (capsicum_file_install sec cur file).1 = KFile.cap rr file ∧
          capsicum_is_cap file = false) := by
  refine ⟨?_, ?_, ?_⟩
  · intro orig r c hvalid hinst
    rcases orig with i | ⟨R, u⟩ | _
    · simp [capsicum_install_fd] at hinst
      exact ⟨KFile.ordinary i, hinst.symm, rfl⟩
    · rcases u with j | ⟨r2, u2⟩ | _
      · simp [capsicum_install_fd] at hinst
        exact ⟨KFile.ordinary j, hinst.symm, rfl⟩
      · simp [validFile] at hvalid
      · simp [validFile] at hvalid
    · simp [validFile] at hvalid
  · intro fdt fd rn c hvalid hnew
    rcases hft : fdt fd with i | ⟨R, u⟩ | _
    · rw [hft] at hvalid
      simp [do_sys_cap_new, hft, capsicum_install_fd] at hnew
      exact ⟨Nat.land rn allOnes, KFile.ordinary i, hnew.symm, rfl⟩
    · rcases u with j | ⟨r2, u2⟩ | _
      · simp [do_sys_cap_new, hft, capsicum_install_fd] at hnew
        exact ⟨Nat.land rn R, KFile.ordinary j, hnew.symm, rfl⟩
      · rw [hft] at hvalid; simp [validFile] at hvalid
      · rw [hft] at hvalid; simp [validFile] at hvalid
    · rw [hft] at hvalid; simp [validFile] at hvalid
  · intro sec cur file
    by_cases hcap : capsicum_is_cap file = true
    · left; simp [capsicum_file_install, hcap]
    · rw [Bool.not_eq_true] at hcap
      cases hg : capsicum_get_pending_syscall sec cur with
      | none => left; simp [capsicum_file_install, hcap, hg]
      | some p =>
        by_cases hguard : p.new_cap_rights = allOnes ∨ p.next_new_cap = none
        · left; simp [capsicum_file_install, hcap, hg, hguard]
        · right
          refine ⟨p.new_cap_rights, ?_, hcap⟩
          simp [capsicum_file_install, hcap, hg, hguard]

/-- C5 witness: wrapping `ordinary 4` with rights 7 produces a capability
whose underlying file is not a capability. -/
theorem C5_witness :
    ∃ t, KFile.cap 7 (KFile.ordinary 4) = KFile.cap 7 t ∧
      capsicum_is_cap t = false :=
  C5_constructed_capabilities_flat.1 (KFile.ordinary 4) 7
    (KFile.cap 7 (KFile.ordinary 4)) (by decide) (by decide)

/-- C3 (amended): for every successful interception of `openat` whose
first fd argument resolves to a capability with rights `R`, the
interceptor pre-allocates (or reuses) a wrapper in `next_new_cap` and
sets `new_cap_rights = R`; provided `R` is not the all-ones sentinel, the
install hook then wraps the newly installed non-capability file in a
capability with rights exactly `R`.  (For `R` equal to all-ones the file
is installed unwrapped — see the counterexample.) -/
theorem C3_openat_inherits_parent_rights
    (p : Pending) (cur : Nat) (fdt : FdTable) (dirfd req R : Nat)
    (d newf : KFile)
    (htask : p.task = cur)
    (hdir : fdt dirfd = KFile.cap R d)
    (hd : d ≠ KFile.nullf)
    (hfd : dirfd ≠ AT_FDCWD)
    (hroom : 0 < p.fd_count)
    (hcov : Nat.land R req = req)
    (hR : R ≠ allOnes)
    (hnew : capsicum_is_cap newf = false) :
    (capsicum_intercept_syscall p fdt NR_openat true [(dirfd, req)]).1
        = SysRes.ok ∧
    (capsicum_intercept_syscall p fdt NR_openat true
        [(dirfd, req)]).2.new_cap_rights = R ∧
    ((capsicum_intercept_syscall p fdt NR_openat true
        [(dirfd, req)]).2.next_new_cap).isSome = true ∧
    (capsicum_file_install
        (some (capsicum_intercept_syscall p fdt NR_openat true
          [(dirfd, req)]).2)
        cur newf).1 = KFile.cap R newf := by
  have hle : ¬ (p.fd_count ≤ (0 : Nat)) := by omega
  have hrr : capsicum_require_rights
      { p with entries := [], new_cap_rights := 0 } fdt dirfd req =
      (SysRes.ok,
       { p with entries := [(dirfd, KFile.cap R d)], new_cap_rights := 0 }) := by
    simp [capsicum_require_rights, hfd, hdir, observedRights, hcov, hle]
  have hrun : capsicum_run_syscall_table true
      { p with entries := [], new_cap_rights := 0 } fdt [(dirfd, req)] =
      (SysRes.ok,
       { p with entries := [(dirfd, KFile.cap R d)], new_cap_rights := 0 }) := by
    simp [capsicum_run_syscall_table, hrr]
  have hint : capsicum_intercept_syscall p fdt NR_openat true [(dirfd, req)] =
      (SysRes.ok,
        { p with entries := [(dirfd, KFile.cap R d)],
                 next_new_cap := some (p.next_new_cap.getD capsicum_cap_alloc),
                 new_cap_rights := R }) := by
    rcases d with i | ⟨r2, u2⟩ | _
    · simp [capsicum_intercept_syscall, hrun]
    · simp [capsicum_intercept_syscall, hrun]
    · exact absurd rfl hd
  have hguard : ¬ ((R = allOnes) ∨
      ((some (p.next_new_cap.getD capsicum_cap_alloc) : Option KFile) = none)) := by
    rintro (h1 | h2)
    · exact hR h1
    · exact Option.some_ne_none _ h2
  refine ⟨by rw [hint], by rw [hint], by simp [hint], ?_⟩
  rw [hint]
  simp [capsicum_file_install, hnew, capsicum_get_pending_syscall, htask,
    hguard, hR]

/-- C3 witness: `openat(3, ...)` on a directory capability of rights 5,
requiring rights 4, succeeds and the installed file is wrapped with
rights 5. -/
theorem C3_witness :
    (capsicum_intercept_syscall ⟨[], 6, none, 0, 5⟩
        (fun n => if n = 3 then KFile.cap 5 (KFile.ordinary 7)
                  else KFile.nullf)
        NR_openat true [(3, 4)]).1 = SysRes.ok ∧
    (capsicum_intercept_syscall ⟨[], 6, none, 0, 5⟩
        (fun n => if n = 3 then KFile.cap 5 (KFile.ordinary 7)
                  else KFile.nullf)
        NR_openat true [(3, 4)]).2.new_cap_rights = 5 ∧
    ((capsicum_intercept_syscall ⟨[], 6, none, 0, 5⟩
        (fun n => if n = 3 then KFile.cap 5 (KFile.ordinary 7)
                  else KFile.nullf)
        NR_openat true [(3, 4)]).2.next_new_cap).isSome = true ∧
    (capsicum_file_install
        (some (capsicum_intercept_syscall ⟨[], 6, none, 0, 5⟩
          (fun n => if n = 3 then KFile.cap 5 (KFile.ordinary 7)
                    else KFile.nullf)
          NR_openat true [(3, 4)]).2)
        5 (KFile.ordinary 9)).1 = KFile.cap 5 (KFile.ordinary 9) :=
  C3_openat_inherits_parent_rights ⟨[], 6, none, 0, 5⟩ 5
    (fun n => if n = 3 then KFile.cap 5 (KFile.ordinary 7) else KFile.nullf)
    3 4 5 (KFile.ordinary 7) (KFile.ordinary 9) rfl (by decide) (by decide)
    (by decide) (by decide) (by decide) (by decide) (by decide)

end Capsicum

namespace Capsicum

/-- If some recorded entry names `fd` with a file pointer other than the
one now observed, the anti-TOCTOU scan returns NULL, regardless of any
other entries for the same fd. -/
lemma lookupScan_denied (fd : Nat) (file underlying : KFile) :
    ∀ (entries : List (Nat × KFile)) (found : Bool),
    (∃ e ∈ entries, e.1 = fd ∧ e.2 ≠ file) →
    lookupScan fd file underlying entries found = LookupOutcome.denied := by
  intro entries
  induction entries with
  | nil => intro found h; simp at h
  | cons hd tl ih =>
    intro found h
    rcases h with ⟨e, he, h1, h2⟩
    rcases List.mem_cons.1 he with rfl | he'
    · simp [lookupScan, h1, h2]
    · by_cases hhd : hd.1 = fd
      · by_cases hf : hd.2 = file
        · simp only [lookupScan, hhd, if_true, hf, ne_eq, not_true_eq_false,
            if_false]
          exact ih true ⟨e, he', h1, h2⟩
        · simp [lookupScan, hhd, hf]
      · simp only [lookupScan, hhd, if_false]
        exact ih found ⟨e, he', h1, h2⟩

/-- If every recorded entry naming `fd` agrees with the observed file,
and `fd` was seen (either earlier in the walk or in the remaining
entries), the scan returns the underlying file. -/
lemma lookupScan_proceed (fd : Nat) (file underlying : KFile) :
    ∀ (entries : List (Nat × KFile)) (found : Bool),
    (∀ e ∈ entries, e.1 = fd → e.2 = file) →
    (found = true ∨ ∃ e ∈ entries, e.1 = fd) →
    lookupScan fd file underlying entries found =
      LookupOutcome.proceed underlying := by
  intro entries
  induction entries with
  | nil =>
    intro found hall hfound
    rcases hfound with rfl | ⟨e, he, _⟩
    · rfl
    · simp at he
  | cons hd tl ih =>
    intro found hall hfound
    by_cases hhd : hd.1 = fd
    · have hf : hd.2 = file := hall hd (List.mem_cons_self hd tl) hhd
      simp only [lookupScan, hhd, if_true, hf, ne_eq, not_true_eq_false,
        if_false]
      exact ih true (fun e he => hall e (List.mem_cons_of_mem hd he))
        (Or.inl rfl)
    · simp only [lookupScan, hhd, if_false]
      refine ih found (fun e he => hall e (List.mem_cons_of_mem hd he)) ?_
      rcases hfound with rfl | ⟨e, he, h1⟩
      · exact Or.inl rfl
      · rcases List.mem_cons.1 he with rfl | he'
        · exact absurd h1 hhd
        · exact Or.inr ⟨e, he', h1⟩

/-- C1: in capability mode with a self-owned slate, resolving a
capability file walks all recorded entries: if any entry recording this
fd holds a different file pointer, the lookup is denied (NULL return,
hence `EBADF`), even when another entry for the same fd matches; if every
entry recording this fd matches, the underlying file is returned.  In
particular, with the same fd recorded in two argument positions and its
identity swapped after the entry check, every internal resolution is
denied. -/
theorem C1_file_lookup_checks_all_entries
    (p : Pending) (cur : Nat) (tif : Bool) (mode : Nat)
    (fd rights : Nat) (u file : KFile)
    (htask : p.task = cur)
    (hmode : capsicum_in_cap_mode tif mode = true)
    (hfile : file = KFile.cap rights u)
    (hu : u ≠ KFile.nullf) :
    ((∃ e ∈ p.entries, e.1 = fd ∧ e.2 ≠ file) →
        capsicum_file_lookup (some p) cur tif mode file fd =
          LookupOutcome.denied)
  ∧ ((∃ e ∈ p.entries, e.1 = fd) → (∀ e ∈ p.entries, e.1 = fd → e.2 = file) →
        capsicum_file_lookup (some p) cur tif mode file fd =
          LookupOutcome.proceed u) := by
  subst hfile
  have hred : capsicum_file_lookup (some p) cur tif mode
      (KFile.cap rights u) fd =
      lookupScan fd (KFile.cap rights u) u p.entries false := by
    rcases u with i | ⟨r2, u2⟩ | _
    · simp [capsicum_file_lookup, capsicum_get_pending_syscall, htask, hmode]
    · simp [capsicum_file_lookup, capsicum_get_pending_syscall, htask, hmode]
    · exact absurd rfl hu
  rw [hred]
  exact ⟨fun h => lookupScan_denied fd (KFile.cap rights u) u p.entries false h,
    fun h1 h2 => lookupScan_proceed fd (KFile.cap rights u) u p.entries false
      h2 (Or.inr h1)⟩

/-- C1 witness: fd 7 is recorded twice; after the entry check its
identity was swapped, so the first record no longer matches.  The lookup
is denied even though the second record matches the observed file. -/
theorem C1_witness :
    capsicum_file_lookup
        (some ⟨[(7, KFile.cap 1 (KFile.ordinary 1)),
                (7, KFile.cap 1 (KFile.ordinary 2))], 6, none, 0, 0⟩)
        0 true SECCOMP_MODE_CAPSICUM (KFile.cap 1 (KFile.ordinary 2)) 7 =
      LookupOutcome.denied :=
  (C1_file_lookup_checks_all_entries
    ⟨[(7, KFile.cap 1 (KFile.ordinary 1)),
      (7, KFile.cap 1 (KFile.ordinary 2))], 6, none, 0, 0⟩
    0 true SECCOMP_MODE_CAPSICUM 7 1 (KFile.ordinary 2)
    (KFile.cap 1 (KFile.ordinary 2)) rfl (by decide) rfl (by decide)).1
    ⟨(7, KFile.cap 1 (KFile.ordinary 1)), by decide, by decide, by decide⟩

end Capsicum

namespace Capsicum

/-- A pathname's leading run of non-slash characters is `..` exactly when
the condition tested by `capsicum_path_lookup` holds: the first two
characters are dots and the third is absent or a slash. -/
lemma takeWhile_dotdot (s : List Char) :
    s.takeWhile (fun d => d ≠ '/') = ['.', '.'] ↔
      (s.take 2 = ['.', '.'] ∧ (s.drop 2 = [] ∨ (s.drop 2).head? = some '/')) := by
  rcases s with _ | ⟨a, _ | ⟨b, _ | ⟨c, t⟩⟩⟩
  · simp
  · by_cases ha : a = '/' <;> simp_all [List.takeWhile]
  · by_cases ha : a = '/' <;> by_cases hb : b = '/' <;>
      simp_all [List.takeWhile]
  · by_cases ha : a = '/' <;> by_cases hb : b = '/' <;>
      by_cases hc : c = '/' <;> simp_all [List.takeWhile]

/-- The components of a pathname are the leading non-slash runs of its
component-start suffixes. -/
lemma pathComponentsAux_eq_map : ∀ (b : Bool) (p : List Char),
    pathComponentsAux b p =
      (compSuffixesAux b p).map (fun s => s.takeWhile (fun d => d ≠ '/')) := by
  intro b p
  induction p generalizing b with
  | nil => rfl
  | cons c rest ih =>
    by_cases hc : c = '/'
    · simp [pathComponentsAux, compSuffixesAux, hc, ih true]
    · cases b <;> simp [pathComponentsAux, compSuffixesAux, hc, ih false]

/-- Every component-start suffix begins with a non-slash character. -/
lemma compSuffixesAux_head : ∀ (b : Bool) (p s : List Char),
    s ∈ compSuffixesAux b p → ∃ c t, s = c :: t ∧ c ≠ '/' := by
  intro b p
  induction p generalizing b with
  | nil => intro s hs; simp [compSuffixesAux] at hs
  | cons c rest ih =>
    intro s hs
    by_cases hc : c = '/'
    · simp only [compSuffixesAux, hc, if_true] at hs
      exact ih true s hs
    · simp only [compSuffixesAux, hc, if_false] at hs
      cases b
      · simp only [Bool.false_eq_true, if_false, List.nil_append] at hs
        exact ih false s hs
      · rcases List.mem_append.1 hs with h1 | h2
        · simp at h1
          exact ⟨c, rest, h1, hc⟩
        · exact ih false s h2

/-- One hook invocation in capability mode rejects exactly the names that
are absolute or whose leading component is `..`. -/
lemma path_lookup_fails_iff (tif : Bool) (mode : Nat)
    (h : capsicum_in_cap_mode tif mode = true) (s : List Char) :
    capsicum_path_lookup tif mode s = SysRes.fails Err.eCapMode ↔
      (s.head? = some '/' ∨ s.takeWhile (fun d => d ≠ '/') = ['.', '.']) := by
  unfold capsicum_path_lookup
  rw [h]
  by_cases hA : s.take 2 = ['.', '.'] ∧
      (s.drop 2 = [] ∨ (s.drop 2).head? = some '/')
  · rw [if_pos hA]
    exact iff_of_true (by rfl) (Or.inr ((takeWhile_dotdot s).2 hA))
  · rw [if_neg hA]
    by_cases hS : s.head? = some '/'
    · rw [if_pos hS]
      exact iff_of_true (by rfl) (Or.inl hS)
    · rw [if_neg hS]
      refine iff_of_false (by simp) ?_
      rintro (h1 | h2)
      · exact hS h1
      · exact hA ((takeWhile_dotdot s).1 h2)

/-- C7: in capability mode, a pathname walk is rejected (`ECAPMODE`) iff
the pathname has a `/` prefix or contains a `..` component; outside
capability mode the hook never rejects. -/
theorem C7_path_confinement (tif : Bool) (mode : Nat) (p : List Char) :
    (capsicum_in_cap_mode tif mode = true →
      (capsicum_path_walk tif mode p = true ↔
        (p.head? = some '/' ∨ ['.', '.'] ∈ pathComponents p)))
  ∧ (capsicum_in_cap_mode tif mode = false →
      capsicum_path_walk tif mode p = false) := by
  constructor
  · intro h
    rw [capsicum_path_walk, List.any_eq_true]
    constructor
    · rintro ⟨s, hs, hrej⟩
      rw [hookRejects, decide_eq_true_eq,
        path_lookup_fails_iff tif mode h s] at hrej
      rcases List.mem_cons.1 hs with rfl | hs'
      · rcases hrej with habs | hdd
        · exact Or.inl habs
        · right
          rcases s with _ | ⟨c, rest⟩
          · simp [List.takeWhile] at hdd
          · have hc : ¬ (c = '/') := by
              intro hcc
              subst hcc
              simp [List.takeWhile] at hdd
            rw [pathComponents]
            simp only [pathComponentsAux, hc, if_false, if_true,
              List.singleton_append]
            exact hdd ▸ List.mem_cons_self _ _
      · obtain ⟨c, t, rfl, hc⟩ := compSuffixesAux_head true p s hs'
        rcases hrej with habs | hdd
        · simp at habs
          exact absurd habs hc
        · right
          rw [pathComponents, pathComponentsAux_eq_map]
          exact List.mem_map.2 ⟨c :: t, hs', hdd⟩
    · rintro (habs | hmem)
      · refine ⟨p, List.mem_cons_self _ _, ?_⟩
        rw [hookRejects, decide_eq_true_eq,
          path_lookup_fails_iff tif mode h p]
        exact Or.inl habs
      · rw [pathComponents, pathComponentsAux_eq_map] at hmem
        obtain ⟨s, hs, htw⟩ := List.mem_map.1 hmem
        refine ⟨s, List.mem_cons_of_mem _ hs, ?_⟩
        rw [hookRejects, decide_eq_true_eq,
          path_lookup_fails_iff tif mode h s]
        exact Or.inr htw
  · intro h
    rw [capsicum_path_walk]
    rw [List.any_eq_false]
    intro s hs
    simp [hookRejects, capsicum_path_lookup, h]

/-- C7 witness: the walk of `../x` in capability mode satisfies the
characterisation, and the walk of `/x` outside capability mode is not
rejected. -/
theorem C7_witness :
    (capsicum_path_walk true SECCOMP_MODE_CAPSICUM
        ['.', '.', '/', 'x'] = true ↔
      ((['.', '.', '/', 'x'] : List Char).head? = some '/' ∨
        ['.', '.'] ∈ pathComponents ['.', '.', '/', 'x'])) ∧
    capsicum_path_walk false 0 ['/', 'x'] = false :=
  ⟨(C7_path_confinement true SECCOMP_MODE_CAPSICUM ['.', '.', '/', 'x']).1
      (by decide),
   (C7_path_confinement false 0 ['/', 'x']).2 (by decide)⟩

end Capsicum
